import Mathlib

/-!
# Verification of the ASB data-analysis script

A shallow embedding of `src/asb_data_analysis.py`, a linear pandas script
that loads one CSV table, cleans it (type coercion, imputation, sparse-row
pruning, deduplication), writes the cleaned table, draws three guarded
charts and runs two guarded hypothesis tests.

Cells are modelled as numeric (`ℚ`, standing for pandas floats), textual,
or the missing marker (NaN).  A table is the header row plus the data rows.
The pandas dtype of a column is derived: a column whose cells are all
numeric-or-missing has numeric dtype (this is what `read_csv` and the two
coercions in the script produce), every other column has object dtype.
-/

/-- A cell of the loaded table: numeric (a pandas float), textual, or the
missing marker (NaN).  `drop_duplicates` and cell comparison treat two
missing markers as equal, as pandas does in `duplicated`. -/
inductive Cell where
  | num (q : ℚ)
  | str (s : String)
  | missing
deriving DecidableEq

/-- Is this cell the missing marker (NaN)? -/
def Cell.isMissing : Cell → Bool
  | .missing => true
  | _ => false

/-- Is this cell numeric? -/
def Cell.isNum : Cell → Bool
  | .num _ => true
  | _ => false

/-- A data frame: named columns over aligned rows. -/
structure Table where
  header : List String
  rows : List (List Cell)
deriving DecidableEq

/-- Well-formedness: every row has exactly one cell per column. -/
def Table.wf (t : Table) : Prop :=
  ∀ r ∈ t.rows, r.length = t.header.length

/-- The cells of column `j`, read down the rows. -/
def colCells (t : Table) (j : Nat) : List Cell :=
  t.rows.map (fun r => r.getD j Cell.missing)

/-- Index of the first column with the given name (`df.columns` lookup). -/
def colIdx (l : List String) (name : String) : Option Nat :=
  match l with
  | [] => none
  | a :: rest => if a = name then some 0 else (colIdx rest name).map (· + 1)

/-- The cells of the column with the given name, `[]` if absent. -/
def colByName (t : Table) (name : String) : List Cell :=
  match colIdx t.header name with
  | some j => colCells t j
  | none => []

/-- Derived pandas dtype: a column is numeric when every cell is a number or
the missing marker (an all-missing column loads as float64, hence numeric). -/
def isNumericCol (cells : List Cell) : Bool :=
  cells.all (fun c => c.isNum || c.isMissing)

/-- The numeric values of the non-missing cells of a column. -/
def numVals : List Cell → List ℚ
  | [] => []
  | .num q :: cs => q :: numVals cs
  | _ :: cs => numVals cs

/-- `Series.median()` with the default `skipna=True`: sort the values; odd
length takes the middle element, even length the mean of the two middle
elements; the median of an empty value list is undefined (pandas returns
NaN, i.e. the missing marker survives `fillna`). -/
def median (xs : List ℚ) : Option ℚ :=
  if xs.length = 0 then none
  else
    let s := List.insertionSort (· ≤ ·) xs
    if xs.length % 2 = 1 then some (s.getD (xs.length / 2) 0)
    else some ((s.getD (xs.length / 2 - 1) 0 + s.getD (xs.length / 2) 0) / 2)

/-- Map a function over a row together with the column index of each cell. -/
def rowMapIdx (f : Nat → Cell → Cell) : Nat → List Cell → List Cell
  | _, [] => []
  | j, c :: cs => f j c :: rowMapIdx f (j + 1) cs

/-- Split a character list at every occurrence of the separator. -/
def splitOnChar (sep : Char) : List Char → List (List Char)
  | [] => [[]]
  | c :: cs =>
    let r := splitOnChar sep cs
    if c = sep then [] :: r
    else
      match r with
      | [] => [[c]]
      | g :: gs => (c :: g) :: gs

/-- The numeric value of a string of decimal digits. -/
def digitsToNat (cs : List Char) : Nat :=
  cs.foldl (fun n c => 10 * n + (c.toNat - 48)) 0

/-- Parse one or two ASCII digits (the `%H` / `%M` fields of `strptime`,
which accept a non-zero-padded single digit). -/
def digits2ToNat (cs : List Char) : Option Nat :=
  if 1 ≤ cs.length ∧ cs.length ≤ 2 ∧ cs.all Char.isDigit then
    some (digitsToNat cs)
  else none

/-- Parse a clock time in 24-hour `HH:MM` form (`strptime` format
`%H:%M`): hour 0–23, minute 0–59, nothing before or after; return the hour
component. -/
def parseHourMin (s : String) : Option Nat :=
  match splitOnChar ':' s.toList with
  | [h, m] =>
    match digits2ToNat h, digits2ToNat m with
    | some hn, some mn => if hn ≤ 23 && mn ≤ 59 then some hn else none
    | _, _ => none
  | _ => none

/-- Line 26: `pd.to_datetime(cell, format='%H:%M', errors='coerce').dt.hour`
on one cell.  A conforming `HH:MM` string yields its hour; any other cell
(non-conforming string, non-string, or already missing) yields the missing
marker; `errors='coerce'` means no exception is ever raised, which the
totality of this function reflects. -/
def coerceHourCell : Cell → Cell
  | .str s =>
    match parseHourMin s with
    | some h => .num (h : ℚ)
    | none => .missing
  | _ => .missing

/-- Digits of an unsigned decimal integer. -/
def parseDecimalDigits (cs : List Char) : Option Nat :=
  if cs ≠ [] ∧ cs.all Char.isDigit then some (digitsToNat cs)
  else none

/-- An unsigned decimal numeral, with an optional fractional part. -/
def parseUnsignedDecimal (cs : List Char) : Option ℚ :=
  match splitOnChar '.' cs with
  | [w] => (parseDecimalDigits w).map (fun n => (n : ℚ))
  | [w, f] => do
    let wn ← parseDecimalDigits w
    let fn ← parseDecimalDigits f
    pure ((wn : ℚ) + mkRat fn (10 ^ f.length))
  | _ => none

/-- The decimal fragment of the numeric parser behind `pd.to_numeric`:
an optional sign followed by a decimal numeral with an optional fractional
part.  Anything else (empty string, letters, malformed numerals) fails to
parse. -/
def parseNumeric (s : String) : Option ℚ :=
  match s.toList with
  | '-' :: rest => (parseUnsignedDecimal rest).map (fun q => -q)
  | '+' :: rest => parseUnsignedDecimal rest
  | cs => parseUnsignedDecimal cs

/-- Line 22: `pd.to_numeric(cell, errors='coerce')` on one cell: numbers
pass through, parseable strings become their value, anything else becomes
the missing marker, and nothing raises. -/
def coerceNumericCell : Cell → Cell
  | .num q => .num q
  | .str s =>
    match parseNumeric s with
    | some q => .num q
    | none => .missing
  | .missing => .missing

/-- Apply `f` to every cell of the column with the given name; a table
without that column is returned unchanged (the script's
`if name in df.columns` guard). -/
def mapCol (t : Table) (name : String) (f : Cell → Cell) : Table :=
  match colIdx t.header name with
  | none => t
  | some j =>
    { t with rows := t.rows.map (rowMapIdx (fun i c => if i = j then f c else c) 0) }

/-- Lines 21–26: coerce `Response_Time` to numeric and `Hour` to the hour
component of an `HH:MM` time, each step skipped if its column is absent. -/
def coerceSteps (t : Table) : Table :=
  mapCol (mapCol t "Response_Time" coerceNumericCell) "Hour" coerceHourCell

/-- The cell-level effect of numeric imputation at column `j` of table `t`:
in a numeric-dtype column, a missing cell becomes the column median when
that median exists (pandas: `fillna` with a NaN median leaves NaN). -/
def numFill (t : Table) (j : Nat) (c : Cell) : Cell :=
  if isNumericCol (colCells t j) then
    match c, median (numVals (colCells t j)) with
    | .missing, some m => .num m
    | _, _ => c
  else c

/-- Lines 29–30: `df[numeric_cols] = df[numeric_cols].fillna(df[numeric_cols].median())`. -/
def imputeNumeric (t : Table) : Table :=
  { t with rows := t.rows.map (rowMapIdx (numFill t) 0) }

/-- The cell-level effect of categorical imputation at column `j`: in an
object-dtype column, a missing cell becomes the sentinel `"Unknown"`. -/
def catFill (t : Table) (j : Nat) (c : Cell) : Cell :=
  if isNumericCol (colCells t j) then c
  else
    match c with
    | .missing => .str "Unknown"
    | _ => c

/-- Lines 33–34: `df[categorical_cols] = df[categorical_cols].fillna("Unknown")`. -/
def imputeCategorical (t : Table) : Table :=
  { t with rows := t.rows.map (rowMapIdx (catFill t) 0) }

/-- The number of non-missing cells of a row (what `dropna(thresh=...)`
counts). -/
def countNonMissing (r : List Cell) : Nat :=
  (r.filter (fun c => !c.isMissing)).length

/-- Lines 37–38: `threshold = len(df.columns) // 2;
df.dropna(thresh=threshold)` — keep exactly the rows with at least
`threshold` non-missing cells. -/
def dropSparse (t : Table) : Table :=
  let threshold := t.header.length / 2
  { t with rows := t.rows.filter (fun r => threshold ≤ countNonMissing r) }

/-- Keep the elements not seen before, first occurrences surviving. -/
def dedupFrom {α : Type} [DecidableEq α] (seen : List α) : List α → List α
  | [] => []
  | r :: rs => if r ∈ seen then dedupFrom seen rs else r :: dedupFrom (r :: seen) rs

/-- Line 41: `df.drop_duplicates()` — remove every row equal to an earlier
row, keeping the first occurrence. -/
def dropDuplicates (t : Table) : Table :=
  { t with rows := dedupFrom [] t.rows }

/-- Lines 21–41: the whole cleaning pipeline, in the script's order:
coerce → impute numeric → impute categorical → drop sparse rows →
drop duplicates. -/
def cleanTable (t : Table) : Table :=
  dropDuplicates (dropSparse (imputeCategorical (imputeNumeric (coerceSteps t))))

/-! ## The analysis phase (lines 44–144)

After cleaning, the script unconditionally writes the cleaned table
(line 54) and then runs five guarded blocks: three charts and two
hypothesis tests.  Each block is skipped with a printed warning when its
required column is absent.  The observable behaviour is modelled as a list
of events; column access is modelled in `Except`, so that reading an
absent column is an error — the theorem that a run returns `.ok` is the
statement that the guards prevent any such error. -/

/-- One observable action of the analysis phase. -/
inductive Event where
  | savedCsv
  | chart (column : String)
  | skipChart (column : String)
  | chiSquare (stat : ℚ) (dof : Nat) (p : Option ℚ) (reject : Option Bool)
  | skipChiSquare
  | tTest
  | skipTTest
deriving DecidableEq

/-- `df[name]`: the cells of a column, or an error when the column is
absent (a pandas `KeyError`). -/
def getColE (t : Table) (name : String) : Except String (List Cell) :=
  match colIdx t.header name with
  | some j => .ok (colCells t j)
  | none => .error name

/-- The number of occurrences of a value in a column. -/
def countOccurrences (cells : List Cell) (v : Cell) : Nat :=
  (cells.filter (fun c => c = v)).length

/-- `df[col].value_counts()`: occurrence counts of the distinct
non-missing values, sorted by count descending. -/
def valueCounts (cells : List Cell) : List (Cell × Nat) :=
  let present := cells.filter (fun c => !c.isMissing)
  let uniq := dedupFrom [] present
  List.insertionSort (fun a b => b.2 ≤ a.2)
    (uniq.map (fun v => (v, countOccurrences present v)))

/-- The script's fixed significance threshold, 0.05. -/
def significance : ℚ := mkRat 1 20

/-- `scipy.stats.chi2_contingency(observed)` on an `r × c` table, with the
default Yates correction (applied only when `dof = 1`).  The degrees of
freedom and the statistic are exact; when `dof = 0` scipy takes an
explicit degenerate branch returning `chi2 = 0.0` and `p = 1.0` (the
expected table then equals the observed one); for `dof > 0` the p-value is
a chi-square upper-tail probability, an irrational real that a rational
model cannot produce, returned as `none` (the script only ever reaches the
`dof = 0` branch, since its observed table has a single column). -/
def chi2Contingency (obs : List (List ℚ)) : ℚ × Nat × Option ℚ :=
  let r := obs.length
  let c := (obs.headD []).length
  let dof := (r - 1) * (c - 1)
  if dof = 0 then (0, 0, some 1)
  else
    let rowSums := obs.map (fun row => row.sum)
    let colSums := (List.range c).map (fun j => (obs.map (fun row => row.getD j 0)).sum)
    let total := rowSums.sum
    let adjust : ℚ → ℚ → ℚ := fun o e =>
      if dof = 1 then
        o + (if o < e then (1 : ℚ) / 2 else if e < o then -((1 : ℚ) / 2) else 0)
      else o
    let stat := ((obs.zip rowSums).map (fun p =>
      ((p.1.zip colSums).map (fun q =>
        let e := p.2 * q.2 / total
        (adjust q.1 e - e) ^ 2 / e)).sum)).sum
    (stat, dof, none)

/-- Lines 60–68: the ASB-type chart, guarded on `Opening_Type_1`. -/
def asbTypeChartE (t : Table) : Except String (List Event) :=
  if "Opening_Type_1" ∈ t.header then do
    let _ ← getColE t "Opening_Type_1"
    pure [Event.chart "Opening_Type_1"]
  else pure [Event.skipChart "Opening_Type_1"]

/-- Lines 71–80: the hour histogram, guarded on `Hour` existing and having
numeric dtype. -/
def hourChartE (t : Table) : Except String (List Event) :=
  if "Hour" ∈ t.header ∧ isNumericCol (colByName t "Hour") then do
    let _ ← getColE t "Hour"
    pure [Event.chart "Hour"]
  else pure [Event.skipChart "Hour"]

/-- Lines 83–91: the borough chart, guarded on the borough column. -/
def boroughChartE (t : Table) : Except String (List Event) :=
  if "Safer_Neighborhood_Team_Borough_Name" ∈ t.header then do
    let _ ← getColE t "Safer_Neighborhood_Team_Borough_Name"
    pure [Event.chart "Safer_Neighborhood_Team_Borough_Name"]
  else pure [Event.skipChart "Safer_Neighborhood_Team_Borough_Name"]

/-- Lines 97–115: the chi-square block.  When the borough column is
present, `chi2_contingency` is applied to the one-column frequency table
`value_counts().to_frame()` and the 0.05 decision rule chooses between the
reject and fail-to-reject messages. -/
def chiSquareE (t : Table) : Except String (List Event) :=
  if "Safer_Neighborhood_Team_Borough_Name" ∈ t.header then do
    let cells ← getColE t "Safer_Neighborhood_Team_Borough_Name"
    let obs := (valueCounts cells).map (fun p => [(p.2 : ℚ)])
    let res := chi2Contingency obs
    pure [Event.chiSquare res.1 res.2.1 res.2.2
      (res.2.2.map (fun p => decide (p < significance)))]
  else pure [Event.skipChiSquare]

/-- Lines 119–144: the t-test block, guarded on the borough column.  The
Welch statistic itself is irrational in general and is not needed by any
property below; the event records that the test ran. -/
def tTestE (t : Table) : Except String (List Event) :=
  if "Safer_Neighborhood_Team_Borough_Name" ∈ t.header then do
    let _ ← getColE t "Safer_Neighborhood_Team_Borough_Name"
    pure [Event.tTest]
  else pure [Event.skipTTest]

/-- Lines 54–144: write the cleaned file (unconditional), then the three
guarded charts and the two guarded tests, in the script's order. -/
def analysisPhase (t : Table) : Except String (List Event) := do
  let c1 ← asbTypeChartE t
  let c2 ← hourChartE t
  let c3 ← boroughChartE t
  let h1 ← chiSquareE t
  let h2 ← tTestE t
  pure (Event.savedCsv :: (c1 ++ c2 ++ c3 ++ h1 ++ h2))

/-- The whole run on a loaded table: clean, then analyse. -/
def runProgram (t : Table) : Except String (List Event) :=
  analysisPhase (cleanTable t)

/-! ## Basic lemmas about the embedding -/

theorem length_rowMapIdx (f : Nat → Cell → Cell) (k : Nat) (r : List Cell) :
    (rowMapIdx f k r).length = r.length := by
  induction r generalizing k with
  | nil => rfl
  | cons c cs ih => simp [rowMapIdx, ih]

theorem getD_rowMapIdx (f : Nat → Cell → Cell) (k i : Nat) (r : List Cell)
    (h : i < r.length) :
    (rowMapIdx f k r).getD i Cell.missing = f (k + i) (r.getD i Cell.missing) := by
  induction r generalizing k i with
  | nil => simp at h
  | cons c cs ih =>
    cases i with
    | zero => simp [rowMapIdx]
    | succ n =>
      have hn : n < cs.length := by simpa using h
      simp only [rowMapIdx, List.getD_cons_succ]
      rw [ih (k + 1) n hn]
      ring_nf

theorem colIdx_lt_length (l : List String) (name : String) (j : Nat)
    (h : colIdx l name = some j) : j < l.length := by
  induction l generalizing j with
  | nil => simp [colIdx] at h
  | cons a rest ih =>
    by_cases ha : a = name
    · simp [colIdx, ha] at h
      subst h
      simp
    · simp [colIdx, ha] at h
      obtain ⟨j', hj', rfl⟩ := h
      have := ih j' hj'
      simpa using Nat.succ_lt_succ this

theorem colIdx_getD (l : List String) (name : String) (j : Nat)
    (h : colIdx l name = some j) : l.getD j "" = name := by
  induction l generalizing j with
  | nil => simp [colIdx] at h
  | cons a rest ih =>
    by_cases ha : a = name
    · simp [colIdx, ha] at h
      subst h
      simpa using ha
    · simp [colIdx, ha] at h
      obtain ⟨j', hj', rfl⟩ := h
      simpa using ih j' hj'

theorem colIdx_isSome_of_mem (l : List String) (name : String) (h : name ∈ l) :
    ∃ j, colIdx l name = some j := by
  induction l with
  | nil => simp at h
  | cons a rest ih =>
    by_cases ha : a = name
    · exact ⟨0, by simp [colIdx, ha]⟩
    · have : name ∈ rest := by
        rcases List.mem_cons.mp h with h' | h'
        · exact absurd h'.symm ha
        · exact h'
      obtain ⟨j, hj⟩ := ih this
      exact ⟨j + 1, by simp [colIdx, ha, hj]⟩

theorem header_mapCol (t : Table) (name : String) (f : Cell → Cell) :
    (mapCol t name f).header = t.header := by
  unfold mapCol
  split <;> rfl

theorem header_coerceSteps (t : Table) : (coerceSteps t).header = t.header := by
  unfold coerceSteps
  rw [header_mapCol, header_mapCol]

theorem wf_mapCol (t : Table) (name : String) (f : Cell → Cell) (hwf : t.wf) :
    (mapCol t name f).wf := by
  unfold Table.wf at *
  unfold mapCol
  split
  · exact hwf
  · intro r hr
    simp only [List.mem_map] at hr
    obtain ⟨r0, hr0, rfl⟩ := hr
    simpa [length_rowMapIdx] using hwf r0 hr0

theorem wf_coerceSteps (t : Table) (hwf : t.wf) : (coerceSteps t).wf := by
  unfold coerceSteps
  have h1 := wf_mapCol t "Response_Time" coerceNumericCell hwf
  have h2 := wf_mapCol _ "Hour" coerceHourCell h1
  intro r hr
  have := h2 r hr
  simpa [header_mapCol] using this

theorem wf_imputeNumeric (t : Table) (hwf : t.wf) : (imputeNumeric t).wf := by
  intro r hr
  simp only [imputeNumeric, List.mem_map] at hr
  obtain ⟨r0, hr0, rfl⟩ := hr
  simpa [length_rowMapIdx] using hwf r0 hr0

theorem wf_imputeCategorical (t : Table) (hwf : t.wf) : (imputeCategorical t).wf := by
  intro r hr
  simp only [imputeCategorical, List.mem_map] at hr
  obtain ⟨r0, hr0, rfl⟩ := hr
  simpa [length_rowMapIdx] using hwf r0 hr0

theorem rows_dropSparse_subset (t : Table) (r : List Cell)
    (h : r ∈ (dropSparse t).rows) : r ∈ t.rows := by
  simp only [dropSparse] at h
  exact (List.mem_filter.mp h).1

theorem mem_of_mem_dedupFrom {α : Type} [DecidableEq α] (seen : List α) (l : List α)
    (a : α) (h : a ∈ dedupFrom seen l) : a ∈ l := by
  induction l generalizing seen with
  | nil => simp [dedupFrom] at h
  | cons b rest ih =>
    by_cases hb : b ∈ seen
    · simp only [dedupFrom, if_pos hb] at h
      exact List.mem_cons_of_mem _ (ih seen h)
    · simp only [dedupFrom, if_neg hb, List.mem_cons] at h
      rcases h with h | h
      · exact h ▸ List.mem_cons_self _ _
      · exact List.mem_cons_of_mem _ (ih _ h)

theorem rows_dropDuplicates_subset (t : Table) (r : List Cell)
    (h : r ∈ (dropDuplicates t).rows) : r ∈ t.rows :=
  mem_of_mem_dedupFrom [] t.rows r h

theorem colCells_subset (t t' : Table) (j : Nat)
    (hrows : ∀ r ∈ t'.rows, r ∈ t.rows) :
    ∀ c ∈ colCells t' j, c ∈ colCells t j := by
  intro c hc
  simp only [colCells, List.mem_map] at hc ⊢
  obtain ⟨r, hr, rfl⟩ := hc
  exact ⟨r, hrows r hr, rfl⟩

/-- A column of a row-mapped table is the mapped column. -/
theorem colCells_map_rowMapIdx (rows : List (List Cell)) (g : Nat → Cell → Cell)
    (j n : Nat) (hlen : ∀ r ∈ rows, r.length = n) (hj : j < n) :
    (rows.map (rowMapIdx g 0)).map (fun r => r.getD j Cell.missing) =
      (rows.map (fun r => r.getD j Cell.missing)).map (g j) := by
  simp only [List.map_map]
  refine List.map_congr_left (fun r hr => ?_)
  have hlt : j < r.length := by rw [hlen r hr]; exact hj
  simp only [Function.comp_apply]
  rw [getD_rowMapIdx g 0 j r hlt, Nat.zero_add]

theorem colCells_imputeNumeric (t : Table) (hwf : t.wf) (j : Nat)
    (hj : j < t.header.length) :
    colCells (imputeNumeric t) j = (colCells t j).map (numFill t j) := by
  simpa [colCells, imputeNumeric] using
    colCells_map_rowMapIdx t.rows (numFill t) j t.header.length hwf hj

theorem colCells_imputeCategorical (t : Table) (hwf : t.wf) (j : Nat)
    (hj : j < t.header.length) :
    colCells (imputeCategorical t) j = (colCells t j).map (catFill t j) := by
  simpa [colCells, imputeCategorical] using
    colCells_map_rowMapIdx t.rows (catFill t) j t.header.length hwf hj

theorem colCells_mapCol_self (t : Table) (hwf : t.wf) (name : String)
    (f : Cell → Cell) (j : Nat) (hidx : colIdx t.header name = some j) :
    colCells (mapCol t name f) j = (colCells t j).map f := by
  have hj : j < t.header.length := colIdx_lt_length _ _ _ hidx
  unfold mapCol
  rw [hidx]
  simpa [colCells] using
    colCells_map_rowMapIdx t.rows (fun i c => if i = j then f c else c) j
      t.header.length hwf hj

theorem colCells_mapCol_ne (t : Table) (hwf : t.wf) (name : String)
    (f : Cell → Cell) (j : Nat) (hj : j < t.header.length)
    (hne : t.header.getD j "" ≠ name) :
    colCells (mapCol t name f) j = colCells t j := by
  unfold mapCol
  cases hidx : colIdx t.header name with
  | none => rfl
  | some j0 =>
    have hj0 : t.header.getD j0 "" = name := colIdx_getD _ _ _ hidx
    have hjj0 : j ≠ j0 := fun h => hne (h ▸ hj0)
    have := colCells_map_rowMapIdx t.rows
      (fun i c => if i = j0 then f c else c) j t.header.length hwf hj
    simpa [colCells, hjj0] using this

/-! ## C1: sparse-row pruning -/

theorem countNonMissing_add_missing (r : List Cell) :
    countNonMissing r + (r.filter (fun c => c.isMissing)).length = r.length := by
  induction r with
  | nil => rfl
  | cons c cs ih =>
    cases c <;> simp [countNonMissing, List.filter, Cell.isMissing] at * <;> omega

/-- C1.  Sparse-row pruning: every row retained by `dropna(thresh)` has at
least `floor(column_count / 2)` non-missing cells, and a row whose missing
cells are at most half of its cells is always retained. -/
theorem sparse_row_pruning_spec (t : Table) (hwf : t.wf) :
    (∀ r ∈ (dropSparse t).rows, t.header.length / 2 ≤ countNonMissing r) ∧
    (∀ r ∈ t.rows, 2 * (r.filter (fun c => c.isMissing)).length ≤ t.header.length →
      r ∈ (dropSparse t).rows) := by
  constructor
  · intro r hr
    simp only [dropSparse, List.mem_filter] at hr
    exact of_decide_eq_true hr.2
  · intro r hr hmiss
    have hlen : r.length = t.header.length := hwf r hr
    have hpart := countNonMissing_add_missing r
    simp only [dropSparse, List.mem_filter]
    refine ⟨hr, decide_eq_true ?_⟩
    omega

/-- Witness for C1 at a concrete two-column table: the row
`[1, missing]` has exactly half of its cells missing and is retained. -/
theorem sparse_row_pruning_spec_witness :
    [Cell.num 1, Cell.missing] ∈
      (dropSparse { header := ["a", "b"], rows := [[Cell.num 1, Cell.missing]] }).rows :=
  (sparse_row_pruning_spec { header := ["a", "b"], rows := [[Cell.num 1, Cell.missing]] }
    (by intro r hr; rcases List.mem_singleton.mp hr with rfl; rfl)).2
    [Cell.num 1, Cell.missing] (by decide) (by decide)

/-! ## C4: Hour coercion -/

theorem parseHourMin_le_23 (s : String) (h : Nat)
    (hp : parseHourMin s = some h) : h ≤ 23 := by
  unfold parseHourMin at hp
  split at hp
  · split at hp
    · split at hp
      · rename_i hguard
        simp only [Option.some.injEq] at hp
        subst hp
        simp only [Bool.and_eq_true, decide_eq_true_eq] at hguard
        exact hguard.1
      · exact absurd hp (by simp)
    · exact absurd hp (by simp)
  · exact absurd hp (by simp)

/-- C4.  Hour coercion: `"08:15"` maps to `8`; `"25:99"` and `"bad"` map
to the missing marker; a missing cell stays missing; and every coerced
cell is either the missing marker or an integer hour in `[0, 23]`.
Totality of `coerceHourCell` is the `errors='coerce'` never-throw
behaviour. -/
theorem hour_coercion_spec :
    coerceHourCell (Cell.str "08:15") = Cell.num 8 ∧
    coerceHourCell (Cell.str "25:99") = Cell.missing ∧
    coerceHourCell (Cell.str "bad") = Cell.missing ∧
    coerceHourCell Cell.missing = Cell.missing ∧
    ∀ c : Cell, coerceHourCell c = Cell.missing ∨
      ∃ n : Nat, n ≤ 23 ∧ coerceHourCell c = Cell.num n := by
  refine ⟨by decide, by decide, by decide, rfl, ?_⟩
  intro c
  cases c with
  | num q => exact Or.inl rfl
  | missing => exact Or.inl rfl
  | str s =>
    cases hp : parseHourMin s with
    | none => exact Or.inl (by simp [coerceHourCell, hp])
    | some h =>
      exact Or.inr ⟨h, parseHourMin_le_23 s h hp, by simp [coerceHourCell, hp]⟩

/-! ## C8: deduplication is idempotent -/

theorem dedupFrom_idem {α : Type} [DecidableEq α] (seen : List α) (l : List α) :
    dedupFrom seen (dedupFrom seen l) = dedupFrom seen l := by
  induction l generalizing seen with
  | nil => rfl
  | cons a rest ih =>
    by_cases h : a ∈ seen
    · simp [dedupFrom, h, ih]
    · simp [dedupFrom, h, ih]

/-- C8.  Deduplication is idempotent: applying `drop_duplicates` twice
leaves the same row count (indeed the same rows) as applying it once. -/
theorem dedup_idempotent (t : Table) :
    (dropDuplicates (dropDuplicates t)).rows.length =
      (dropDuplicates t).rows.length := by
  simp [dropDuplicates, dedupFrom_idem]

/-! ## C2 and C3: imputation -/

theorem cell_isNum_iff (c : Cell) : c.isNum = true ↔ ∃ q, c = Cell.num q := by
  cases c <;> simp [Cell.isNum]

theorem mem_numVals (cells : List Cell) (q : ℚ) (h : Cell.num q ∈ cells) :
    q ∈ numVals cells := by
  induction cells with
  | nil => simp at h
  | cons c cs ih =>
    rcases List.mem_cons.mp h with hc | hc
    · rw [← hc]
      simp [numVals]
    · cases c with
      | num p => exact List.mem_cons_of_mem _ (ih hc)
      | str s => simpa [numVals] using ih hc
      | missing => simpa [numVals] using ih hc

theorem numVals_subset (cells : List Cell) (q : ℚ) (h : q ∈ numVals cells) :
    Cell.num q ∈ cells := by
  induction cells with
  | nil => simp [numVals] at h
  | cons c cs ih =>
    cases c with
    | num p =>
      rcases List.mem_cons.mp h with rfl | h'
      · exact List.mem_cons_self _ _
      · exact List.mem_cons_of_mem _ (ih h')
    | str s => exact List.mem_cons_of_mem _ (ih (by simpa [numVals] using h))
    | missing => exact List.mem_cons_of_mem _ (ih (by simpa [numVals] using h))

theorem median_isSome (xs : List ℚ) (h : xs ≠ []) : ∃ m, median xs = some m := by
  unfold median
  rw [if_neg (by simpa using (List.length_pos.mpr h).ne')]
  split <;> exact ⟨_, rfl⟩

theorem catFill_not_missing (t : Table) (j : Nat) (c : Cell)
    (h : c.isMissing = false) : (catFill t j c).isMissing = false := by
  unfold catFill
  split
  · exact h
  · cases c <;> simp_all [Cell.isMissing]

theorem numFill_of_not_numeric (t : Table) (j : Nat) (c : Cell)
    (h : isNumericCol (colCells t j) = false) : numFill t j c = c := by
  simp [numFill, h]

theorem colCells_cleanTail_subset (w : Table) (j : Nat) :
    ∀ c ∈ colCells (dropDuplicates (dropSparse w)) j, c ∈ colCells w j := by
  intro c hc
  exact colCells_subset w _ j (rows_dropSparse_subset _) c
    (colCells_subset (dropSparse w) _ j (rows_dropDuplicates_subset _) c hc)

/-- C2.  Numeric imputation: in any column that has numeric dtype after
type coercion and still holds at least one non-missing value, the column
median exists, imputation rewrites the column by replacing exactly the
missing cells with that median, and after the full cleaning pipeline the
column contains no missing marker. -/
theorem numeric_imputation_spec (t : Table) (j : Nat) (hwf : t.wf)
    (hj : j < t.header.length)
    (hnum : isNumericCol (colCells (coerceSteps t) j) = true)
    (hsome : ∃ c ∈ colCells (coerceSteps t) j, c.isMissing = false) :
    (∃ m, median (numVals (colCells (coerceSteps t) j)) = some m ∧
      colCells (imputeNumeric (coerceSteps t)) j =
        (colCells (coerceSteps t) j).map
          (fun c => if c.isMissing then Cell.num m else c)) ∧
    ∀ c ∈ colCells (cleanTable t) j, c.isMissing = false := by
  have hwfu : (coerceSteps t).wf := wf_coerceSteps t hwf
  have hju : j < (coerceSteps t).header.length := by
    rw [header_coerceSteps]; exact hj
  obtain ⟨c0, hc0mem, hc0⟩ := hsome
  have hall := List.all_eq_true.mp hnum
  have hc0num : c0.isNum = true := by
    have := hall c0 hc0mem
    cases c0 <;> simp_all [Cell.isNum, Cell.isMissing]
  obtain ⟨q0, rfl⟩ := (cell_isNum_iff c0).mp hc0num
  have hne : numVals (colCells (coerceSteps t) j) ≠ [] :=
    List.ne_nil_of_mem (mem_numVals _ q0 hc0mem)
  obtain ⟨m, hm⟩ := median_isSome _ hne
  have hfill : ∀ c ∈ colCells (coerceSteps t) j,
      numFill (coerceSteps t) j c = if c.isMissing then Cell.num m else c := by
    intro c _
    cases c <;> simp [numFill, hnum, hm, Cell.isMissing]
  refine ⟨⟨m, hm, ?_⟩, ?_⟩
  · rw [colCells_imputeNumeric _ hwfu j hju]
    exact List.map_congr_left hfill
  · intro c hc
    have h1 : c ∈ colCells (imputeCategorical (imputeNumeric (coerceSteps t))) j :=
      colCells_cleanTail_subset _ j c hc
    rw [colCells_imputeCategorical _ (wf_imputeNumeric _ hwfu) j hju] at h1
    obtain ⟨c1, hc1, rfl⟩ := List.mem_map.mp h1
    rw [colCells_imputeNumeric _ hwfu j hju] at hc1
    obtain ⟨c2, hc2, rfl⟩ := List.mem_map.mp hc1
    apply catFill_not_missing
    rw [hfill c2 hc2]
    have := hall c2 hc2
    cases c2 <;> simp_all [Cell.isMissing, Cell.isNum]

/-- Witness for C2: a one-column numeric table with one missing cell
cleans to a column with no missing marker. -/
theorem numeric_imputation_spec_witness :
    (colCells (cleanTable { header := ["a"], rows := [[Cell.num 1], [Cell.missing]] }) 0).all
      (fun c => !c.isMissing) = true :=
  List.all_eq_true.mpr (fun c hc => by
    rw [(numeric_imputation_spec { header := ["a"], rows := [[Cell.num 1], [Cell.missing]] } 0
      (by intro r hr; rcases List.mem_cons.mp hr with rfl | hr
          · rfl
          · rcases List.mem_singleton.mp hr with rfl; rfl)
      (by decide) (by decide) ⟨Cell.num 1, by decide, by decide⟩).2 c hc]
    rfl)

/-- C3.  Categorical imputation: in any column whose dtype after coercion
is object (textual), imputation rewrites the column by replacing exactly
the missing cells with the sentinel `"Unknown"`, and after the full
cleaning pipeline the column contains no missing marker. -/
theorem categorical_imputation_spec (t : Table) (j : Nat) (hwf : t.wf)
    (hj : j < t.header.length)
    (hcat : isNumericCol (colCells (coerceSteps t) j) = false) :
    (colCells (imputeCategorical (imputeNumeric (coerceSteps t))) j =
      (colCells (coerceSteps t) j).map
        (fun c => if c.isMissing then Cell.str "Unknown" else c)) ∧
    ∀ c ∈ colCells (cleanTable t) j, c.isMissing = false := by
  have hwfu : (coerceSteps t).wf := wf_coerceSteps t hwf
  have hju : j < (coerceSteps t).header.length := by
    rw [header_coerceSteps]; exact hj
  have hcolN : colCells (imputeNumeric (coerceSteps t)) j = colCells (coerceSteps t) j := by
    rw [colCells_imputeNumeric _ hwfu j hju]
    rw [List.map_congr_left (fun c _ => numFill_of_not_numeric (coerceSteps t) j c hcat)]
    exact List.map_id _
  have hmain : colCells (imputeCategorical (imputeNumeric (coerceSteps t))) j =
      (colCells (coerceSteps t) j).map
        (fun c => if c.isMissing then Cell.str "Unknown" else c) := by
    rw [colCells_imputeCategorical _ (wf_imputeNumeric _ hwfu) j hju, hcolN]
    refine List.map_congr_left (fun c _ => ?_)
    cases c <;> simp [catFill, hcolN, hcat, Cell.isMissing]
  refine ⟨hmain, fun c hc => ?_⟩
  have h1 : c ∈ colCells (imputeCategorical (imputeNumeric (coerceSteps t))) j :=
    colCells_cleanTail_subset _ j c hc
  rw [hmain] at h1
  obtain ⟨c1, _, rfl⟩ := List.mem_map.mp h1
  cases c1 <;> simp [Cell.isMissing]

/-- Witness for C3: a one-column textual table with one missing cell
cleans to a column with no missing marker. -/
theorem categorical_imputation_spec_witness :
    (colCells (cleanTable { header := ["a"], rows := [[Cell.str "x"], [Cell.missing]] }) 0).all
      (fun c => !c.isMissing) = true :=
  List.all_eq_true.mpr (fun c hc => by
    rw [(categorical_imputation_spec { header := ["a"], rows := [[Cell.str "x"], [Cell.missing]] } 0
      (by intro r hr; rcases List.mem_cons.mp hr with rfl | hr
          · rfl
          · rcases List.mem_singleton.mp hr with rfl; rfl)
      (by decide) (by decide)).2 c hc]
    rfl)

/-! ## C9: pruning after imputation is all-or-nothing -/

theorem numVals_eq_nil_of_all_missing (cells : List Cell)
    (h : ∀ c ∈ cells, c.isMissing = true) : numVals cells = [] := by
  induction cells with
  | nil => rfl
  | cons c cs ih =>
    have hc := h c (List.mem_cons_self _ _)
    have hcs : ∀ x ∈ cs, x.isMissing = true := fun x hx => h x (List.mem_cons_of_mem _ hx)
    cases c with
    | num q => simp [Cell.isMissing] at hc
    | str s => simp [Cell.isMissing] at hc
    | missing => simpa [numVals] using ih hcs

theorem isNumericCol_imputeNumeric (u : Table) (hwf : u.wf) (j : Nat)
    (hj : j < u.header.length) :
    isNumericCol (colCells (imputeNumeric u) j) = isNumericCol (colCells u j) := by
  rw [colCells_imputeNumeric u hwf j hj]
  cases hnum : isNumericCol (colCells u j) with
  | false =>
    rw [List.map_congr_left (fun c _ => numFill_of_not_numeric u j c hnum)]
    simpa using hnum
  | true =>
    apply List.all_eq_true.mpr
    intro x hx
    obtain ⟨c, hc, rfl⟩ := List.mem_map.mp hx
    have hall := List.all_eq_true.mp hnum c hc
    cases c with
    | num q =>
      cases hmed : median (numVals (colCells u j)) <;>
        simp [numFill, hnum, hmed, Cell.isNum]
    | str s => simp [Cell.isNum, Cell.isMissing] at hall
    | missing =>
      cases hmed : median (numVals (colCells u j)) <;>
        simp [numFill, hnum, hmed, Cell.isNum, Cell.isMissing]

/-- The cell of an imputed row at column `j`, written through the two
row maps. -/
theorem imputed_cell (u : Table) (hwf : u.wf) (r0 : List Cell) (hr0 : r0 ∈ u.rows)
    (j : Nat) (hj : j < u.header.length) :
    (rowMapIdx (catFill (imputeNumeric u)) 0 (rowMapIdx (numFill u) 0 r0)).getD j
        Cell.missing =
      catFill (imputeNumeric u) j (numFill u j (r0.getD j Cell.missing)) := by
  have hlen : r0.length = u.header.length := hwf r0 hr0
  have h1 : j < (rowMapIdx (numFill u) 0 r0).length := by
    rw [length_rowMapIdx, hlen]; exact hj
  rw [getD_rowMapIdx _ 0 j _ h1, Nat.zero_add,
    getD_rowMapIdx _ 0 j r0 (by rw [hlen]; exact hj), Nat.zero_add]

/-- After both imputation steps a cell is missing exactly when its column
was a numeric column with every cell missing. -/
theorem imputed_cell_missing_iff (u : Table) (hwf : u.wf) (r0 : List Cell)
    (hr0 : r0 ∈ u.rows) (j : Nat) (hj : j < u.header.length) :
    (catFill (imputeNumeric u) j (numFill u j (r0.getD j Cell.missing))).isMissing = true ↔
      (isNumericCol (colCells u j) = true ∧ ∀ c ∈ colCells u j, c.isMissing = true) := by
  have hcmem : r0.getD j Cell.missing ∈ colCells u j := by
    simp only [colCells, List.mem_map]
    exact ⟨r0, hr0, rfl⟩
  have hwnum := isNumericCol_imputeNumeric u hwf j hj
  generalize hgen : r0.getD j Cell.missing = c at hcmem ⊢
  cases hnum : isNumericCol (colCells u j) with
  | false =>
    have hwf' : isNumericCol (colCells (imputeNumeric u) j) = false := by
      rw [hwnum]; exact hnum
    rw [numFill_of_not_numeric u j c hnum]
    cases c <;> simp [catFill, hwf', hnum, Cell.isMissing]
  | true =>
    have hwf' : isNumericCol (colCells (imputeNumeric u) j) = true := by
      rw [hwnum]; exact hnum
    by_cases hdead : ∀ x ∈ colCells u j, x.isMissing = true
    · have hmed : median (numVals (colCells u j)) = none := by
        rw [numVals_eq_nil_of_all_missing _ hdead]; rfl
      have hcm : c = Cell.missing := by
        have := hdead c hcmem
        cases c <;> simp [Cell.isMissing] at this ⊢
      subst hcm
      have hnf : numFill u j Cell.missing = Cell.missing := by
        simp [numFill, hnum, hmed]
      have hcf : catFill (imputeNumeric u) j Cell.missing = Cell.missing := by
        simp [catFill, hwf']
      rw [hnf, hcf]
      constructor
      · intro _
        exact ⟨rfl, hdead⟩
      · intro _
        rfl
    · have hmem2 : ∃ x ∈ colCells u j, x.isMissing = false := by
        push_neg at hdead
        obtain ⟨x, hx, hxm⟩ := hdead
        exact ⟨x, hx, by cases hb : x.isMissing; rfl; exact absurd hb hxm⟩
      obtain ⟨x, hx, hxm⟩ := hmem2
      have hxnum : x.isNum = true := by
        have := List.all_eq_true.mp hnum x hx
        cases x <;> simp_all [Cell.isNum, Cell.isMissing]
      obtain ⟨q0, rfl⟩ := (cell_isNum_iff x).mp hxnum
      obtain ⟨m, hm⟩ := median_isSome _ (List.ne_nil_of_mem (mem_numVals _ q0 hx))
      have hres : (numFill u j c).isNum = true := by
        have hcall := List.all_eq_true.mp hnum c hcmem
        cases c with
        | num q => simp [numFill, hnum, hm, Cell.isNum]
        | str s => simp [Cell.isNum, Cell.isMissing] at hcall
        | missing => simp [numFill, hnum, hm, Cell.isNum]
      obtain ⟨p, hp⟩ := (cell_isNum_iff _).mp hres
      rw [hp]
      simp only [catFill, hwf', if_true]
      constructor
      · intro hmiss
        simp [Cell.isMissing] at hmiss
      · intro ⟨_, hd⟩
        exact absurd hd hdead

theorem length_filter_congr (p : Cell → Bool) :
    ∀ r1 r2 : List Cell, r1.length = r2.length →
      (∀ i < r1.length, p (r1.getD i Cell.missing) = p (r2.getD i Cell.missing)) →
      (r1.filter p).length = (r2.filter p).length := by
  intro r1
  induction r1 with
  | nil =>
    intro r2 hlen _
    rw [List.length_eq_zero.mp hlen.symm]
  | cons a l ih =>
    intro r2 hlen hpt
    cases r2 with
    | nil => simp at hlen
    | cons b l2 =>
      have h0 : p a = p b := by simpa using hpt 0 (by simp)
      have hrest : ∀ i < l.length, p (l.getD i Cell.missing) = p (l2.getD i Cell.missing) := by
        intro i hi
        simpa using hpt (i + 1) (by simpa using Nat.succ_lt_succ hi)
      have hlen' : l.length = l2.length := by simpa using hlen
      simp only [List.filter]
      rw [h0]
      cases p b <;> simp [ih l2 hlen' hrest]

theorem filter_all_or_none {α : Type} (p : α → Bool) (l : List α)
    (h : ∀ a ∈ l, ∀ b ∈ l, p a = p b) : l.filter p = l ∨ l.filter p = [] := by
  cases l with
  | nil => exact Or.inr rfl
  | cons a l =>
    cases hpa : p a with
    | true =>
      refine Or.inl (List.filter_eq_self.mpr fun b hb => ?_)
      rw [h b hb a (List.mem_cons_self _ _), hpa]
    | false =>
      refine Or.inr (List.filter_eq_nil_iff.mpr fun b hb => ?_)
      rw [h b hb a (List.mem_cons_self _ _), hpa]
      simp

/-- C9.  After the two imputation steps, a cell is missing exactly when
its column is a numeric column that was entirely missing — every row
therefore has the same missing positions — so sparse-row pruning keeps
every row or drops every row, and keeps every row whenever each numeric
column has at least one non-missing value. -/
theorem pruning_all_or_nothing_spec (u : Table) (hwf : u.wf) :
    (∀ r ∈ (imputeCategorical (imputeNumeric u)).rows, ∀ j < u.header.length,
      ((r.getD j Cell.missing).isMissing = true ↔
        (isNumericCol (colCells u j) = true ∧ ∀ c ∈ colCells u j, c.isMissing = true))) ∧
    ((dropSparse (imputeCategorical (imputeNumeric u))).rows =
        (imputeCategorical (imputeNumeric u)).rows ∨
      (dropSparse (imputeCategorical (imputeNumeric u))).rows = []) ∧
    ((∀ j < u.header.length, isNumericCol (colCells u j) = true →
        ∃ c ∈ colCells u j, c.isMissing = false) →
      (dropSparse (imputeCategorical (imputeNumeric u))).rows =
        (imputeCategorical (imputeNumeric u)).rows) := by
  have hrows : (imputeCategorical (imputeNumeric u)).rows =
      u.rows.map (fun r =>
        rowMapIdx (catFill (imputeNumeric u)) 0 (rowMapIdx (numFill u) 0 r)) := by
    simp [imputeCategorical, imputeNumeric, List.map_map, Function.comp]
  have hwfv : (imputeCategorical (imputeNumeric u)).wf :=
    wf_imputeCategorical _ (wf_imputeNumeric _ hwf)
  have hcell : ∀ r ∈ (imputeCategorical (imputeNumeric u)).rows, ∀ j < u.header.length,
      ((r.getD j Cell.missing).isMissing = true ↔
        (isNumericCol (colCells u j) = true ∧ ∀ c ∈ colCells u j, c.isMissing = true)) := by
    intro r hr j hj
    rw [hrows] at hr
    obtain ⟨r0, hr0, rfl⟩ := List.mem_map.mp hr
    rw [imputed_cell u hwf r0 hr0 j hj]
    exact imputed_cell_missing_iff u hwf r0 hr0 j hj
  have hcount : ∀ r1 ∈ (imputeCategorical (imputeNumeric u)).rows,
      ∀ r2 ∈ (imputeCategorical (imputeNumeric u)).rows,
      countNonMissing r1 = countNonMissing r2 := by
    intro r1 h1 r2 h2
    apply length_filter_congr _ r1 r2 ((hwfv r1 h1).trans (hwfv r2 h2).symm)
    intro i hi
    have hi' : i < u.header.length := lt_of_lt_of_eq hi (hwfv r1 h1)
    have e1 := hcell r1 h1 i hi'
    have e2 := hcell r2 h2 i hi'
    have hmiss_eq : (r1.getD i Cell.missing).isMissing = (r2.getD i Cell.missing).isMissing := by
      have h12 := e1.trans e2.symm
      cases hb1 : (r1.getD i Cell.missing).isMissing <;>
        cases hb2 : (r2.getD i Cell.missing).isMissing <;> simp_all
    exact congrArg (fun b => !b) hmiss_eq
  refine ⟨hcell, ?_, ?_⟩
  · have hconst : ∀ a ∈ (imputeCategorical (imputeNumeric u)).rows,
        ∀ b ∈ (imputeCategorical (imputeNumeric u)).rows,
        decide (u.header.length / 2 ≤ countNonMissing a) =
          decide (u.header.length / 2 ≤ countNonMissing b) := by
      intro a ha b hb
      rw [hcount a ha b hb]
    exact filter_all_or_none _ _ hconst
  · intro hnodead
    apply List.filter_eq_self.mpr
    intro r hr
    have hallnm : ∀ c ∈ r, c.isMissing = false := by
      intro c hc
      obtain ⟨i, hilt, hig⟩ := List.mem_iff_getElem.mp hc
      have hi' : i < u.header.length := lt_of_lt_of_eq hilt (hwfv r hr)
      have hiff := hcell r hr i hi'
      rw [List.getD_eq_getElem r Cell.missing hilt, hig] at hiff
      cases hmiss : c.isMissing
      · rfl
      · exfalso
        obtain ⟨hnum, hmall⟩ := hiff.mp hmiss
        obtain ⟨c', hc', hc'f⟩ := hnodead i hi' hnum
        exact absurd (hmall c' hc') (by simp [hc'f])
    have hcnt : countNonMissing r = r.length := by
      unfold countNonMissing
      rw [List.filter_eq_self.mpr (fun c hc => by simp [hallnm c hc])]
    apply decide_eq_true
    rw [hcnt, hwfv r hr]
    exact Nat.div_le_self _ _

/-- Witness for C9 at a concrete mixed table with one fully-missing
numeric column: pruning keeps every row. -/
theorem pruning_all_or_nothing_spec_witness :
    (dropSparse (imputeCategorical (imputeNumeric
        { header := ["a", "b"], rows := [[Cell.num 1, Cell.missing]] }))).rows =
      (imputeCategorical (imputeNumeric
        { header := ["a", "b"], rows := [[Cell.num 1, Cell.missing]] })).rows ∨
    (dropSparse (imputeCategorical (imputeNumeric
        { header := ["a", "b"], rows := [[Cell.num 1, Cell.missing]] }))).rows = [] :=
  (pruning_all_or_nothing_spec { header := ["a", "b"], rows := [[Cell.num 1, Cell.missing]] }
    (by intro r hr; rcases List.mem_singleton.mp hr with rfl; rfl)).2.1

/-! ## C10: Hour range survives the pipeline, integrality does not -/

theorem median_mem_range (xs : List ℚ) (lo hi : ℚ)
    (hall : ∀ x ∈ xs, lo ≤ x ∧ x ≤ hi) (m : ℚ) (hm : median xs = some m) :
    lo ≤ m ∧ m ≤ hi := by
  unfold median at hm
  by_cases h0 : xs.length = 0
  · rw [if_pos h0] at hm
    exact absurd hm (by simp)
  · rw [if_neg h0] at hm
    have hperm : List.Perm (List.insertionSort (· ≤ ·) xs) xs := List.perm_insertionSort _ xs
    have hlen : (List.insertionSort (· ≤ ·) xs).length = xs.length := hperm.length_eq
    have hmem : ∀ i < (List.insertionSort (· ≤ ·) xs).length,
        lo ≤ (List.insertionSort (· ≤ ·) xs).getD i 0 ∧
          (List.insertionSort (· ≤ ·) xs).getD i 0 ≤ hi := by
      intro i hi
      rw [List.getD_eq_getElem _ 0 hi]
      exact hall _ (hperm.mem_iff.mp (List.getElem_mem hi))
    split at hm
    · have h1 := hmem (xs.length / 2) (by rw [hlen]; omega)
      simp only [Option.some.injEq] at hm
      rw [← hm]
      exact h1
    · rename_i heven
      have h1 := hmem (xs.length / 2 - 1) (by rw [hlen]; omega)
      have h2 := hmem (xs.length / 2) (by rw [hlen]; omega)
      simp only [Option.some.injEq] at hm
      rw [← hm]
      constructor <;> [linarith [h1.1, h2.1]; linarith [h1.2, h2.2]]

theorem numFill_num (t : Table) (j : Nat) (q : ℚ)
    (h : isNumericCol (colCells t j) = true) : numFill t j (Cell.num q) = Cell.num q := by
  cases hm : median (numVals (colCells t j)) <;> simp [numFill, h, hm]

theorem numFill_missing (t : Table) (j : Nat) (m : ℚ)
    (h : isNumericCol (colCells t j) = true)
    (hm : median (numVals (colCells t j)) = some m) :
    numFill t j Cell.missing = Cell.num m := by
  simp [numFill, h, hm]

theorem catFill_of_numeric (t : Table) (j : Nat) (c : Cell)
    (h : isNumericCol (colCells t j) = true) : catFill t j c = c := by
  simp [catFill, h]

theorem catFill_str (t : Table) (j : Nat) (s : String)
    (h : isNumericCol (colCells t j) = false) :
    catFill t j (Cell.str s) = Cell.str s := by
  simp [catFill, h]

theorem colCells_imputeNumeric_fill (u : Table) (hwfu : u.wf) (j : Nat)
    (hj : j < u.header.length) (hnum : isNumericCol (colCells u j) = true)
    (m : ℚ) (hm : median (numVals (colCells u j)) = some m) :
    colCells (imputeNumeric u) j =
      (colCells u j).map (fun c => if c.isMissing then Cell.num m else c) := by
  rw [colCells_imputeNumeric u hwfu j hj]
  refine List.map_congr_left (fun c _ => ?_)
  cases c <;> simp [numFill, hnum, hm, Cell.isMissing]

/-- The coerced `Hour` column holds only the missing marker and integer
hours in `[0, 23]`. -/
theorem coerced_hour_col (t : Table) (hwf : t.wf) (j : Nat)
    (hidx : colIdx t.header "Hour" = some j) :
    ∀ c ∈ colCells (coerceSteps t) j,
      c = Cell.missing ∨ ∃ n : Nat, n ≤ 23 ∧ c = Cell.num n := by
  have hwf1 : (mapCol t "Response_Time" coerceNumericCell).wf := wf_mapCol _ _ _ hwf
  have hidx1 : colIdx (mapCol t "Response_Time" coerceNumericCell).header "Hour" = some j := by
    rw [header_mapCol]; exact hidx
  have hcol : colCells (coerceSteps t) j =
      (colCells (mapCol t "Response_Time" coerceNumericCell) j).map coerceHourCell :=
    colCells_mapCol_self _ hwf1 "Hour" coerceHourCell j hidx1
  rw [hcol]
  intro c hc
  obtain ⟨c0, _, rfl⟩ := List.mem_map.mp hc
  cases c0 with
  | num q => exact Or.inl rfl
  | missing => exact Or.inl rfl
  | str s =>
    cases hp : parseHourMin s with
    | none => exact Or.inl (by simp [coerceHourCell, hp])
    | some h => exact Or.inr ⟨h, parseHourMin_le_23 s h hp, by simp [coerceHourCell, hp]⟩

/-- A three-row table whose `Hour` column parses to `[8, 9, missing]`:
its median, `17/2`, is not an integer. -/
def hourExample : Table :=
  { header := ["Hour", "ID"],
    rows := [[Cell.str "08:00", Cell.str "a"], [Cell.str "09:00", Cell.str "b"],
             [Cell.missing, Cell.str "c"]] }

/-- `hourExample` after the coercion step. -/
def hourExampleCoerced : Table :=
  { header := ["Hour", "ID"],
    rows := [[Cell.num 8, Cell.str "a"], [Cell.num 9, Cell.str "b"],
             [Cell.missing, Cell.str "c"]] }

/-- `hourExample` after coercion and both imputation steps: the missing
hour was filled with the median `17/2`. -/
def hourExampleImputed : Table :=
  { header := ["Hour", "ID"],
    rows := [[Cell.num 8, Cell.str "a"], [Cell.num 9, Cell.str "b"],
             [Cell.num (17 / 2), Cell.str "c"]] }

/-- C10.  When the `Hour` column is present and at least one of its cells
parses as `HH:MM`, every cell of the cleaned `Hour` column is a number in
`[0, 23]`; but there is an input on which the imputed value — the column
median — is not an integer, so the cleaned column need not be
integer-valued. -/
theorem hour_range_not_integral_spec (t : Table) (j : Nat) (hwf : t.wf)
    (hidx : colIdx t.header "Hour" = some j)
    (hpars : ∃ c ∈ colCells (coerceSteps t) j, c.isMissing = false) :
    (∀ c ∈ colCells (cleanTable t) j, ∃ q : ℚ, c = Cell.num q ∧ 0 ≤ q ∧ q ≤ 23) ∧
    (∃ t0 : Table, ∃ j0 : Nat, t0.wf ∧ colIdx t0.header "Hour" = some j0 ∧
      (∃ c ∈ colCells (coerceSteps t0) j0, c.isMissing = false) ∧
      ∃ q : ℚ, Cell.num q ∈ colCells (cleanTable t0) j0 ∧ ¬ ∃ z : ℤ, q = (z : ℚ)) := by
  constructor
  · have hj : j < t.header.length := colIdx_lt_length _ _ _ hidx
    have hwfu : (coerceSteps t).wf := wf_coerceSteps t hwf
    have hju : j < (coerceSteps t).header.length := by rw [header_coerceSteps]; exact hj
    have hshape := coerced_hour_col t hwf j hidx
    have hnum : isNumericCol (colCells (coerceSteps t) j) = true := by
      apply List.all_eq_true.mpr
      intro c hc
      rcases hshape c hc with rfl | ⟨n, _, rfl⟩ <;> simp [Cell.isNum, Cell.isMissing]
    have hrange : ∀ q ∈ numVals (colCells (coerceSteps t) j), 0 ≤ q ∧ q ≤ 23 := by
      intro q hq
      rcases hshape _ (numVals_subset _ q hq) with h | ⟨n, hn, hval⟩
      · exact absurd h (by simp)
      · obtain rfl : q = (n : ℚ) := by simpa using hval
        exact ⟨Nat.cast_nonneg n, by exact_mod_cast hn⟩
    obtain ⟨c0, hc0mem, hc0⟩ := hpars
    have hc0' : ∃ q0, c0 = Cell.num q0 := by
      rcases hshape c0 hc0mem with rfl | ⟨n, _, rfl⟩
      · simp [Cell.isMissing] at hc0
      · exact ⟨n, rfl⟩
    obtain ⟨q0, rfl⟩ := hc0'
    obtain ⟨m, hm⟩ := median_isSome _ (List.ne_nil_of_mem (mem_numVals _ q0 hc0mem))
    have hmrange : 0 ≤ m ∧ m ≤ 23 := median_mem_range _ 0 23 hrange m hm
    intro c hc
    have h1 : c ∈ colCells (imputeCategorical (imputeNumeric (coerceSteps t))) j :=
      colCells_cleanTail_subset _ j c hc
    have hwf2 : isNumericCol (colCells (imputeNumeric (coerceSteps t)) j) = true := by
      rw [isNumericCol_imputeNumeric _ hwfu j hju]; exact hnum
    rw [colCells_imputeCategorical _ (wf_imputeNumeric _ hwfu) j hju] at h1
    obtain ⟨c1, hc1, rfl⟩ := List.mem_map.mp h1
    rw [colCells_imputeNumeric_fill _ hwfu j hju hnum m hm] at hc1
    obtain ⟨c2, hc2, rfl⟩ := List.mem_map.mp hc1
    have hcat : catFill (imputeNumeric (coerceSteps t)) j
        (if c2.isMissing then Cell.num m else c2) =
        (if c2.isMissing then Cell.num m else c2) := by
      simp [catFill, hwf2]
    rw [hcat]
    rcases hshape c2 hc2 with rfl | ⟨n, hn, rfl⟩
    · exact ⟨m, by simp [Cell.isMissing], hmrange.1, hmrange.2⟩
    · exact ⟨n, by simp [Cell.isMissing], Nat.cast_nonneg n, by exact_mod_cast hn⟩
  · refine ⟨hourExample, 0, ?_, by decide, ?_, ?_⟩
    · intro r hr
      rcases List.mem_cons.mp hr with rfl | hr
      · rfl
      rcases List.mem_cons.mp hr with rfl | hr
      · rfl
      rcases List.mem_singleton.mp hr with rfl
      rfl
    · exact ⟨Cell.num 8, by decide, by decide⟩
    · refine ⟨17 / 2, ?_, ?_⟩
      · have hn0 : isNumericCol (colCells hourExampleCoerced 0) = true := by decide
        have hn1 : isNumericCol (colCells hourExampleCoerced 1) = false := by decide
        have hnv : numVals (colCells hourExampleCoerced 0) = [8, 9] := by decide
        have hmed : median (numVals (colCells hourExampleCoerced 0)) = some (17 / 2) := by
          rw [hnv]
          simp [median, List.insertionSort, List.orderedInsert]
          norm_num
        have hcoerce : coerceSteps hourExample = hourExampleCoerced := by decide
        have himp : imputeNumeric hourExampleCoerced = hourExampleImputed := by
          show Table.mk hourExampleCoerced.header
            (hourExampleCoerced.rows.map (rowMapIdx (numFill hourExampleCoerced) 0)) =
            hourExampleImputed
          have e1 : hourExampleCoerced.rows.map (rowMapIdx (numFill hourExampleCoerced) 0) =
              hourExampleImputed.rows := by
            show List.map _ [[Cell.num 8, Cell.str "a"], [Cell.num 9, Cell.str "b"],
              [Cell.missing, Cell.str "c"]] = _
            simp only [List.map_cons, List.map_nil, rowMapIdx]
            rw [numFill_num _ _ _ hn0, numFill_num _ _ _ hn0,
              numFill_missing _ _ _ hn0 hmed,
              numFill_of_not_numeric _ _ _ hn1, numFill_of_not_numeric _ _ _ hn1,
              numFill_of_not_numeric _ _ _ hn1]
            rfl
          rw [e1]
          rfl
        have hm0 : isNumericCol (colCells hourExampleImputed 0) = true := by decide
        have hm1 : isNumericCol (colCells hourExampleImputed 1) = false := by decide
        have hcat : imputeCategorical hourExampleImputed = hourExampleImputed := by
          show Table.mk hourExampleImputed.header
            (hourExampleImputed.rows.map (rowMapIdx (catFill hourExampleImputed) 0)) =
            hourExampleImputed
          have e2 : hourExampleImputed.rows.map (rowMapIdx (catFill hourExampleImputed) 0) =
              hourExampleImputed.rows := by
            show List.map _ [[Cell.num 8, Cell.str "a"], [Cell.num 9, Cell.str "b"],
              [Cell.num (17 / 2), Cell.str "c"]] = _
            simp only [List.map_cons, List.map_nil, rowMapIdx]
            rw [catFill_of_numeric _ _ _ hm0, catFill_of_numeric _ _ _ hm0,
              catFill_of_numeric _ _ _ hm0,
              catFill_str _ _ _ hm1, catFill_str _ _ _ hm1, catFill_str _ _ _ hm1]
            rfl
          rw [e2]
        have hdropS : dropSparse hourExampleImputed = hourExampleImputed := by
          show Table.mk hourExampleImputed.header
            (hourExampleImputed.rows.filter
              (fun r => hourExampleImputed.header.length / 2 ≤ countNonMissing r)) =
            hourExampleImputed
          have e3 : hourExampleImputed.rows.filter
              (fun r => hourExampleImputed.header.length / 2 ≤ countNonMissing r) =
              hourExampleImputed.rows := by
            apply List.filter_eq_self.mpr
            intro r hr
            rcases List.mem_cons.mp hr with rfl | hr
            · decide
            rcases List.mem_cons.mp hr with rfl | hr
            · decide
            rcases List.mem_singleton.mp hr with rfl
            decide
          rw [e3]
        have hdropD : dropDuplicates hourExampleImputed = hourExampleImputed := by
          show Table.mk hourExampleImputed.header
            (dedupFrom [] hourExampleImputed.rows) = hourExampleImputed
          have e4 : dedupFrom [] hourExampleImputed.rows = hourExampleImputed.rows := by
            show dedupFrom [] [[Cell.num 8, Cell.str "a"], [Cell.num 9, Cell.str "b"],
              [Cell.num (17 / 2), Cell.str "c"]] = _
            simp [dedupFrom]
            rfl
          rw [e4]
        have hfinal : colCells (cleanTable hourExample) 0 =
            [Cell.num 8, Cell.num 9, Cell.num (17 / 2)] := by
          show colCells (dropDuplicates (dropSparse (imputeCategorical
            (imputeNumeric (coerceSteps hourExample))))) 0 = _
          rw [hcoerce, himp, hcat, hdropS, hdropD]
          rfl
        rw [hfinal]
        simp
      · rintro ⟨z, hz⟩
        have h2 : (17 : ℚ) = 2 * (z : ℚ) := by
          field_simp at hz
          linarith
        have h3 : (17 : ℤ) = 2 * z := by exact_mod_cast h2
        omega

/-- Witness for C10 at `hourExample`: every cleaned Hour cell is a
number. -/
theorem hour_range_not_integral_spec_witness :
    (colCells (cleanTable hourExample) 0).all (fun c => c.isNum) = true :=
  List.all_eq_true.mpr (fun c hc => by
    obtain ⟨q, rfl, _, _⟩ := (hour_range_not_integral_spec hourExample 0
      (by intro r hr
          rcases List.mem_cons.mp hr with rfl | hr
          · rfl
          rcases List.mem_cons.mp hr with rfl | hr
          · rfl
          rcases List.mem_singleton.mp hr with rfl
          rfl)
      (by decide) ⟨Cell.num 8, by decide, by decide⟩).1 c hc
    rfl)

/-! ## C6: graceful degradation without the borough column -/

theorem getColE_ok_of_mem (t : Table) (name : String) (h : name ∈ t.header) :
    ∃ cells, getColE t name = .ok cells := by
  obtain ⟨j, hj⟩ := colIdx_isSome_of_mem t.header name h
  exact ⟨colCells t j, by simp [getColE, hj]⟩

theorem asbTypeChartE_ok (t : Table) :
    ∃ e, asbTypeChartE t = .ok [e] ∧
      (e = Event.chart "Opening_Type_1" ∨ e = Event.skipChart "Opening_Type_1") := by
  unfold asbTypeChartE
  by_cases h : "Opening_Type_1" ∈ t.header
  · obtain ⟨cells, hc⟩ := getColE_ok_of_mem t _ h
    exact ⟨Event.chart "Opening_Type_1", by simp [h, hc, pure, Except.pure, bind, Except.bind], Or.inl rfl⟩
  · exact ⟨Event.skipChart "Opening_Type_1", by simp [h, pure, Except.pure], Or.inr rfl⟩

theorem hourChartE_ok (t : Table) :
    ∃ e, hourChartE t = .ok [e] ∧
      (e = Event.chart "Hour" ∨ e = Event.skipChart "Hour") := by
  unfold hourChartE
  by_cases h : "Hour" ∈ t.header ∧ isNumericCol (colByName t "Hour") = true
  · obtain ⟨cells, hc⟩ := getColE_ok_of_mem t _ h.1
    refine ⟨Event.chart "Hour", ?_, Or.inl rfl⟩
    rw [if_pos (by simpa using h)]
    simp [hc, pure, Except.pure, bind, Except.bind]
  · refine ⟨Event.skipChart "Hour", ?_, Or.inr rfl⟩
    rw [if_neg (by simpa using h)]
    rfl

/-- C6.  A table without the `Safer_Neighborhood_Team_Borough_Name`
column: the analysis phase completes without error (`.ok`), the cleaned
file is still written, the borough chart and both hypothesis tests are
skipped, each with its warning, and no borough chart, chi-square result or
t-test run is emitted. -/
theorem missing_schema_spec (t : Table)
    (hb : "Safer_Neighborhood_Team_Borough_Name" ∉ t.header) :
    ∃ evs, analysisPhase t = .ok evs ∧
      Event.savedCsv ∈ evs ∧
      Event.skipChart "Safer_Neighborhood_Team_Borough_Name" ∈ evs ∧
      Event.skipChiSquare ∈ evs ∧
      Event.skipTTest ∈ evs ∧
      Event.chart "Safer_Neighborhood_Team_Borough_Name" ∉ evs ∧
      (∀ s d p rj, Event.chiSquare s d p rj ∉ evs) ∧
      Event.tTest ∉ evs := by
  obtain ⟨e1, he1, hd1⟩ := asbTypeChartE_ok t
  obtain ⟨e2, he2, hd2⟩ := hourChartE_ok t
  have hb3 : boroughChartE t = .ok [Event.skipChart "Safer_Neighborhood_Team_Borough_Name"] := by
    simp [boroughChartE, hb, pure, Except.pure]
  have hb4 : chiSquareE t = .ok [Event.skipChiSquare] := by
    simp [chiSquareE, hb, pure, Except.pure]
  have hb5 : tTestE t = .ok [Event.skipTTest] := by
    simp [tTestE, hb, pure, Except.pure]
  refine ⟨Event.savedCsv :: ([e1] ++ [e2] ++
      [Event.skipChart "Safer_Neighborhood_Team_Borough_Name"] ++
      [Event.skipChiSquare] ++ [Event.skipTTest]), ?_, ?_, ?_, ?_, ?_, ?_, ?_, ?_⟩
  · simp [analysisPhase, he1, he2, hb3, hb4, hb5]
    rfl
  · simp
  · simp
  · simp
  · simp
  · rcases hd1 with rfl | rfl <;> rcases hd2 with rfl | rfl <;> simp
  · intro s d p rj
    rcases hd1 with rfl | rfl <;> rcases hd2 with rfl | rfl <;> simp
  · rcases hd1 with rfl | rfl <;> rcases hd2 with rfl | rfl <;> simp

/-- Witness for C6 at a concrete borough-less table. -/
theorem missing_schema_spec_witness :
    ∃ evs, analysisPhase { header := ["Opening_Type_1"], rows := [[Cell.str "x"]] } = .ok evs ∧
      Event.savedCsv ∈ evs ∧
      Event.skipChart "Safer_Neighborhood_Team_Borough_Name" ∈ evs ∧
      Event.skipChiSquare ∈ evs ∧
      Event.skipTTest ∈ evs ∧
      Event.chart "Safer_Neighborhood_Team_Borough_Name" ∉ evs ∧
      (∀ s d p rj, Event.chiSquare s d p rj ∉ evs) ∧
      Event.tTest ∉ evs :=
  missing_schema_spec { header := ["Opening_Type_1"], rows := [[Cell.str "x"]] } (by decide)

/-! ## C5: the chi-square scenario -/

/-- The cleaned table of the C5 scenario: 100 incidents in borough `A`,
10 in `B`, 5 in `C`, so the borough-count frequency table is
`{A: 100, B: 10, C: 5}`. -/
def boroughScenario : Table :=
  { header := ["Safer_Neighborhood_Team_Borough_Name"],
    rows := List.replicate 100 [Cell.str "A"] ++ List.replicate 10 [Cell.str "B"] ++
      List.replicate 5 [Cell.str "C"] }

/-- C5 (the claim is wrong about the code).  On the scenario table whose
borough frequency table is `{A: 100, B: 10, C: 5}`, the script's
chi-square step feeds the one-column table `[[100], [10], [5]]` to
`chi2_contingency`, which has zero degrees of freedom, so scipy's
degenerate branch returns statistic `0` and p-value exactly `1`: the 0.05
rule prints the fail-to-reject conclusion, not the reject conclusion the
claim expects. -/
theorem chi_square_scenario_code_bug :
    valueCounts (colByName boroughScenario "Safer_Neighborhood_Team_Borough_Name") =
      [(Cell.str "A", 100), (Cell.str "B", 10), (Cell.str "C", 5)] ∧
    chiSquareE boroughScenario = .ok [Event.chiSquare 0 0 (some 1) (some false)] ∧
    ¬ ((1 : ℚ) < significance) := by
  refine ⟨by decide, rfl, by decide⟩

/-! ## C7: the end-to-end scenario -/

theorem mapCol_eq_of_some (t : Table) (name : String) (f : Cell → Cell) (j : Nat)
    (h : colIdx t.header name = some j) :
    mapCol t name f =
      Table.mk t.header
        (t.rows.map (rowMapIdx (fun i c => if i = j then f c else c) 0)) := by
  unfold mapCol
  rw [h]

theorem mapCol_eq_of_none (t : Table) (name : String) (f : Cell → Cell)
    (h : colIdx t.header name = none) : mapCol t name f = t := by
  unfold mapCol
  rw [h]

/-- The end-to-end scenario table: ten rows whose `Response_Time` column
holds `"5"`, `"x"`, `"7"`, the missing marker (the empty CSV cell) and
`"3"`, followed by five numeric values, with a populated ID column. -/
def e2eTable (v1 v2 v3 v4 v5 : ℚ) : Table :=
  { header := ["Response_Time", "ID"],
    rows := [[Cell.str "5", Cell.str "r0"], [Cell.str "x", Cell.str "r1"],
             [Cell.str "7", Cell.str "r2"], [Cell.missing, Cell.str "r3"],
             [Cell.str "3", Cell.str "r4"], [Cell.num v1, Cell.str "r5"],
             [Cell.num v2, Cell.str "r6"], [Cell.num v3, Cell.str "r7"],
             [Cell.num v4, Cell.str "r8"], [Cell.num v5, Cell.str "r9"]] }

/-- The scenario table after `to_numeric` coercion: `"x"` became missing. -/
def e2eCoerced (v1 v2 v3 v4 v5 : ℚ) : Table :=
  { header := ["Response_Time", "ID"],
    rows := [[Cell.num 5, Cell.str "r0"], [Cell.missing, Cell.str "r1"],
             [Cell.num 7, Cell.str "r2"], [Cell.missing, Cell.str "r3"],
             [Cell.num 3, Cell.str "r4"], [Cell.num v1, Cell.str "r5"],
             [Cell.num v2, Cell.str "r6"], [Cell.num v3, Cell.str "r7"],
             [Cell.num v4, Cell.str "r8"], [Cell.num v5, Cell.str "r9"]] }

/-- The scenario table after imputation filled both missing cells with the
median `m`. -/
def e2eImputed (m v1 v2 v3 v4 v5 : ℚ) : Table :=
  { header := ["Response_Time", "ID"],
    rows := [[Cell.num 5, Cell.str "r0"], [Cell.num m, Cell.str "r1"],
             [Cell.num 7, Cell.str "r2"], [Cell.num m, Cell.str "r3"],
             [Cell.num 3, Cell.str "r4"], [Cell.num v1, Cell.str "r5"],
             [Cell.num v2, Cell.str "r6"], [Cell.num v3, Cell.str "r7"],
             [Cell.num v4, Cell.str "r8"], [Cell.num v5, Cell.str "r9"]] }

/-- C7.  End-to-end scenario: for every choice of the five extra numeric
values, the valid parsed `Response_Time` values are `[5, 7, 3]` plus those
five; the column median exists; after the full pipeline the second cell of
the column equals that median; and sparse-row pruning drops none of the
ten rows. -/
theorem end_to_end_scenario_spec (v1 v2 v3 v4 v5 : ℚ) :
    ∃ m, median (numVals (colCells (coerceSteps (e2eTable v1 v2 v3 v4 v5)) 0)) = some m ∧
      numVals (colCells (coerceSteps (e2eTable v1 v2 v3 v4 v5)) 0) =
        [5, 7, 3, v1, v2, v3, v4, v5] ∧
      (colCells (cleanTable (e2eTable v1 v2 v3 v4 v5)) 0).getD 1 Cell.missing = Cell.num m ∧
      (dropSparse (imputeCategorical (imputeNumeric (coerceSteps
        (e2eTable v1 v2 v3 v4 v5))))).rows.length = 10 := by
  have c5 : coerceNumericCell (Cell.str "5") = Cell.num 5 := by decide
  have cx : coerceNumericCell (Cell.str "x") = Cell.missing := by decide
  have c7 : coerceNumericCell (Cell.str "7") = Cell.num 7 := by decide
  have c3 : coerceNumericCell (Cell.str "3") = Cell.num 3 := by decide
  have cm : coerceNumericCell Cell.missing = Cell.missing := rfl
  have cv : ∀ v : ℚ, coerceNumericCell (Cell.num v) = Cell.num v := fun _ => rfl
  have hcoerce : coerceSteps (e2eTable v1 v2 v3 v4 v5) = e2eCoerced v1 v2 v3 v4 v5 := by
    unfold coerceSteps
    rw [mapCol_eq_of_none
      (mapCol (e2eTable v1 v2 v3 v4 v5) "Response_Time" coerceNumericCell)
      "Hour" coerceHourCell rfl]
    rw [mapCol_eq_of_some (e2eTable v1 v2 v3 v4 v5) "Response_Time" coerceNumericCell 0 rfl]
    simp [e2eTable, e2eCoerced, rowMapIdx, c5, cx, c7, c3, cm, cv]
  have hnv : numVals (colCells (e2eCoerced v1 v2 v3 v4 v5) 0) =
      [5, 7, 3, v1, v2, v3, v4, v5] := rfl
  obtain ⟨m, hm⟩ := median_isSome (numVals (colCells (e2eCoerced v1 v2 v3 v4 v5) 0))
    (by rw [hnv]; simp)
  have hn0 : isNumericCol (colCells (e2eCoerced v1 v2 v3 v4 v5) 0) = true := rfl
  have hn1 : isNumericCol (colCells (e2eCoerced v1 v2 v3 v4 v5) 1) = false := rfl
  have f0 : ∀ q : ℚ, numFill (e2eCoerced v1 v2 v3 v4 v5) 0 (Cell.num q) = Cell.num q :=
    fun q => numFill_num _ 0 q hn0
  have fm : numFill (e2eCoerced v1 v2 v3 v4 v5) 0 Cell.missing = Cell.num m :=
    numFill_missing _ 0 m hn0 hm
  have f1 : ∀ c, numFill (e2eCoerced v1 v2 v3 v4 v5) 1 c = c :=
    fun c => numFill_of_not_numeric _ 1 c hn1
  have hrowsC : (e2eCoerced v1 v2 v3 v4 v5).rows =
      [[Cell.num 5, Cell.str "r0"], [Cell.missing, Cell.str "r1"],
       [Cell.num 7, Cell.str "r2"], [Cell.missing, Cell.str "r3"],
       [Cell.num 3, Cell.str "r4"], [Cell.num v1, Cell.str "r5"],
       [Cell.num v2, Cell.str "r6"], [Cell.num v3, Cell.str "r7"],
       [Cell.num v4, Cell.str "r8"], [Cell.num v5, Cell.str "r9"]] := rfl
  have himp : imputeNumeric (e2eCoerced v1 v2 v3 v4 v5) = e2eImputed m v1 v2 v3 v4 v5 := by
    show Table.mk (e2eCoerced v1 v2 v3 v4 v5).header
      ((e2eCoerced v1 v2 v3 v4 v5).rows.map
        (rowMapIdx (numFill (e2eCoerced v1 v2 v3 v4 v5)) 0)) =
      e2eImputed m v1 v2 v3 v4 v5
    have e1 : (e2eCoerced v1 v2 v3 v4 v5).rows.map
        (rowMapIdx (numFill (e2eCoerced v1 v2 v3 v4 v5)) 0) =
        (e2eImputed m v1 v2 v3 v4 v5).rows := by
      rw [hrowsC]
      simp [rowMapIdx, f0, fm, f1]
      rfl
    rw [e1]
    rfl
  have hm0 : isNumericCol (colCells (e2eImputed m v1 v2 v3 v4 v5) 0) = true := rfl
  have hm1 : isNumericCol (colCells (e2eImputed m v1 v2 v3 v4 v5) 1) = false := rfl
  have g0 : ∀ c, catFill (e2eImputed m v1 v2 v3 v4 v5) 0 c = c :=
    fun c => catFill_of_numeric _ 0 c hm0
  have g1 : ∀ s, catFill (e2eImputed m v1 v2 v3 v4 v5) 1 (Cell.str s) = Cell.str s :=
    fun s => catFill_str _ 1 s hm1
  have hrowsI : (e2eImputed m v1 v2 v3 v4 v5).rows =
      [[Cell.num 5, Cell.str "r0"], [Cell.num m, Cell.str "r1"],
       [Cell.num 7, Cell.str "r2"], [Cell.num m, Cell.str "r3"],
       [Cell.num 3, Cell.str "r4"], [Cell.num v1, Cell.str "r5"],
       [Cell.num v2, Cell.str "r6"], [Cell.num v3, Cell.str "r7"],
       [Cell.num v4, Cell.str "r8"], [Cell.num v5, Cell.str "r9"]] := rfl
  have hcat : imputeCategorical (e2eImputed m v1 v2 v3 v4 v5) = e2eImputed m v1 v2 v3 v4 v5 := by
    show Table.mk (e2eImputed m v1 v2 v3 v4 v5).header
      ((e2eImputed m v1 v2 v3 v4 v5).rows.map
        (rowMapIdx (catFill (e2eImputed m v1 v2 v3 v4 v5)) 0)) =
      e2eImputed m v1 v2 v3 v4 v5
    have e2 : (e2eImputed m v1 v2 v3 v4 v5).rows.map
        (rowMapIdx (catFill (e2eImputed m v1 v2 v3 v4 v5)) 0) =
        (e2eImputed m v1 v2 v3 v4 v5).rows := by
      rw [hrowsI]
      simp [rowMapIdx, g0, g1]
    rw [e2]
  have hdropS : dropSparse (e2eImputed m v1 v2 v3 v4 v5) = e2eImputed m v1 v2 v3 v4 v5 := by
    show Table.mk (e2eImputed m v1 v2 v3 v4 v5).header
      ((e2eImputed m v1 v2 v3 v4 v5).rows.filter
        (fun r => (e2eImputed m v1 v2 v3 v4 v5).header.length / 2 ≤ countNonMissing r)) =
      e2eImputed m v1 v2 v3 v4 v5
    have e3 : (e2eImputed m v1 v2 v3 v4 v5).rows.filter
        (fun r => (e2eImputed m v1 v2 v3 v4 v5).header.length / 2 ≤ countNonMissing r) =
        (e2eImputed m v1 v2 v3 v4 v5).rows := by
      apply List.filter_eq_self.mpr
      intro r hr
      rw [hrowsI] at hr
      have hlen : (e2eImputed m v1 v2 v3 v4 v5).header.length = 2 := rfl
      fin_cases hr <;> simp [hlen, countNonMissing, Cell.isMissing]
    rw [e3]
  have hdropD : dropDuplicates (e2eImputed m v1 v2 v3 v4 v5) = e2eImputed m v1 v2 v3 v4 v5 := by
    show Table.mk (e2eImputed m v1 v2 v3 v4 v5).header
      (dedupFrom [] (e2eImputed m v1 v2 v3 v4 v5).rows) = e2eImputed m v1 v2 v3 v4 v5
    have e4 : dedupFrom [] (e2eImputed m v1 v2 v3 v4 v5).rows =
        (e2eImputed m v1 v2 v3 v4 v5).rows := by
      rw [hrowsI]
      simp [dedupFrom]
    rw [e4]
  refine ⟨m, ?_, ?_, ?_, ?_⟩
  · rw [hcoerce]
    exact hm
  · rw [hcoerce]
    exact hnv
  · show (colCells (dropDuplicates (dropSparse (imputeCategorical (imputeNumeric
      (coerceSteps (e2eTable v1 v2 v3 v4 v5)))))) 0).getD 1 Cell.missing = Cell.num m
    rw [hcoerce, himp, hcat, hdropS, hdropD]
    rfl
  · rw [hcoerce, himp, hcat, hdropS]
    rfl

